import Mathlib

/-!
# Medivault — verification of the catalog controller and service layer

Shallow embedding of the Medivault sources:
* `src/unnamed/part_000` (the shared type declarations),
* `src/components/FileManager.tsx` (filter / sort / simulated upload),
* `src/App.tsx` (classification, upload/delete handlers, id generation),
* `src/lib/backend.ts` (auth and file persistence services).

JavaScript strings become `String` (compared through their character data),
numbers and `Date` values become `Nat` (dates compare through their numeric
timestamp), `Math.random`-derived data becomes explicit oracle parameters,
and promise outcomes become `Except`.
-/

namespace Medivault

/-! ## Data model (`types.ts`) -/

/-- `StoredFile` from `types.ts`, minus the binary `content` payload (a
browser `File` handle; no claim constrains it). `uploadDate` is the numeric
timestamp of the `Date`. -/
structure StoredFile where
  id : String
  name : String
  type : String
  size : Nat
  uploadDate : Nat
  medicalCourse : String
deriving DecidableEq, Repr

/-! ## JS string helpers

`String.prototype.includes`, `toLowerCase` and `<` on strings, over the
character data. -/

/-- Pattern `pat` occurs at the start of `s` (JS `startsWith`). -/
def startsWithChars : (pat s : List Char) → Bool
  | [], _ => true
  | _ :: _, [] => false
  | p :: ps, c :: cs => p == c && startsWithChars ps cs

/-- Pattern `pat` occurs somewhere in `s` (JS `String.prototype.includes`). -/
def includesChars : (s pat : List Char) → Bool
  | [], pat => pat.isEmpty
  | c :: cs, pat => startsWithChars pat (c :: cs) || includesChars cs pat

/-- JS `toLowerCase`, character by character. -/
def toLowerChars (s : List Char) : List Char :=
  s.map Char.toLower

/-- JS `<` on strings: lexicographic comparison of the character sequences. -/
def charsLt : List Char → List Char → Bool
  | [], [] => false
  | [], _ :: _ => true
  | _ :: _, [] => false
  | a :: as, b :: bs =>
    if a < b then true else if b < a then false else charsLt as bs

/-- JS `<` on numbers, restricted to the natural values used here. -/
def natLt (x y : Nat) : Bool :=
  decide (x < y)

/-! ### `charsLt` and `natLt` are strict total orders -/

/-- A boolean strict total order: irreflexive, transitive, trichotomous. -/
def StrictTotalB {α : Type} (lt : α → α → Bool) : Prop :=
  (∀ x, lt x x = false) ∧
  (∀ x y z, lt x y = true → lt y z = true → lt x z = true) ∧
  (∀ x y, lt x y = true ∨ lt y x = true ∨ x = y)

theorem StrictTotalB.asymm {α : Type} {lt : α → α → Bool}
    (h : StrictTotalB lt) {x y : α} (hxy : lt x y = true) : lt y x = false := by
  by_contra hc
  rw [Bool.not_eq_false] at hc
  have := h.2.1 x y x hxy hc
  rw [h.1 x] at this
  exact Bool.false_ne_true this

theorem natLt_strictTotal : StrictTotalB natLt := by
  refine ⟨?_, ?_, ?_⟩
  · intro x
    simp [natLt]
  · intro x y z hxy hyz
    simp only [natLt, decide_eq_true_eq] at *
    omega
  · intro x y
    simp only [natLt, decide_eq_true_eq]
    omega

theorem charsLt_irrefl : ∀ x : List Char, charsLt x x = false
  | [] => rfl
  | a :: as => by
    simp [charsLt, lt_irrefl, charsLt_irrefl as]

theorem charsLt_trans : ∀ x y z : List Char,
    charsLt x y = true → charsLt y z = true → charsLt x z = true
  | [], [], _, h, _ => by simp [charsLt] at h
  | [], _ :: _, [], _, h => by simp [charsLt] at h
  | [], _ :: _, _ :: _, _, _ => by simp [charsLt]
  | _ :: _, [], _, h, _ => by simp [charsLt] at h
  | _ :: _, _ :: _, [], _, h => by simp [charsLt] at h
  | a :: as, b :: bs, c :: cs, h1, h2 => by
    simp only [charsLt] at h1 h2 ⊢
    rcases lt_trichotomy a b with hab | hab | hab
    · rcases lt_trichotomy b c with hbc | hbc | hbc
      · rw [if_pos (lt_trans hab hbc)]
      · subst hbc
        rw [if_pos hab]
      · rw [if_neg (lt_asymm hbc), if_pos hbc] at h2
        exact absurd h2 (by simp)
    · subst hab
      rw [if_neg (lt_irrefl a), if_neg (lt_irrefl a)] at h1
      rcases lt_trichotomy a c with hac | hac | hac
      · rw [if_pos hac]
      · subst hac
        rw [if_neg (lt_irrefl a), if_neg (lt_irrefl a)] at h2 ⊢
        exact charsLt_trans as bs cs h1 h2
      · rw [if_neg (lt_asymm hac), if_pos hac] at h2
        exact absurd h2 (by simp)
    · rw [if_neg (lt_asymm hab), if_pos hab] at h1
      exact absurd h1 (by simp)

theorem charsLt_trichotomy : ∀ x y : List Char,
    charsLt x y = true ∨ charsLt y x = true ∨ x = y
  | [], [] => Or.inr (Or.inr rfl)
  | [], _ :: _ => Or.inl (by simp [charsLt])
  | _ :: _, [] => Or.inr (Or.inl (by simp [charsLt]))
  | a :: as, b :: bs => by
    rcases lt_trichotomy a b with hab | hab | hab
    · exact Or.inl (by simp [charsLt, hab])
    · subst hab
      rcases charsLt_trichotomy as bs with h | h | h
      · exact Or.inl (by simp [charsLt, lt_irrefl, h])
      · exact Or.inr (Or.inl (by simp [charsLt, lt_irrefl, h]))
      · exact Or.inr (Or.inr (by rw [h]))
    · exact Or.inr (Or.inl (by simp [charsLt, hab, not_lt_of_gt hab]))

theorem charsLt_strictTotal : StrictTotalB charsLt :=
  ⟨charsLt_irrefl, charsLt_trans, charsLt_trichotomy⟩

/-! ## Sort configuration (`FileManager.tsx`) -/

/-- `SortKey` from `FileManager.tsx`. -/
inductive SortKey
  | name
  | medicalCourse
  | size
  | uploadDate
deriving DecidableEq, Repr

/-- Sort direction, `'asc' | 'desc'`. -/
inductive SortDir
  | asc
  | desc
deriving DecidableEq, Repr

/-- `SortConfig` from `FileManager.tsx`. -/
structure SortConfig where
  key : SortKey
  direction : SortDir
deriving DecidableEq, Repr

/-- `handleSort` (`FileManager.tsx` lines 121–126): the functional state
update applied to the current sort configuration when a column header with
key `key` is clicked. -/
def handleSort (current : SortConfig) (key : SortKey) : SortConfig :=
  { key := key
    direction :=
      if current.key = key ∧ current.direction = SortDir.asc
      then SortDir.desc else SortDir.asc }

/-! ## The visible-rows computation (`filteredAndSortedFiles`) -/

/-- The three-way comparison the sort callback performs on the two projected
values: `aValue < bValue → asc ? -1 : 1`, `aValue > bValue → asc ? 1 : -1`,
otherwise `0`. -/
def cmp3 {α : Type} (lt : α → α → Bool) (direction : SortDir) (x y : α) : Int :=
  if lt x y then (match direction with | SortDir.asc => -1 | SortDir.desc => 1)
  else if lt y x then (match direction with | SortDir.asc => 1 | SortDir.desc => -1)
  else 0

/-- The sort callback of `filteredAndSortedFiles`, dispatching on
`sortConfig.key` the way `a[sortConfig.key]` does. -/
def cmpFiles (cfg : SortConfig) (a b : StoredFile) : Int :=
  match cfg.key with
  | SortKey.name => cmp3 charsLt cfg.direction a.name.data b.name.data
  | SortKey.medicalCourse =>
    cmp3 charsLt cfg.direction a.medicalCourse.data b.medicalCourse.data
  | SortKey.size => cmp3 natLt cfg.direction a.size b.size
  | SortKey.uploadDate => cmp3 natLt cfg.direction a.uploadDate b.uploadDate

/-- The non-strict order induced by the comparator (`cmpFiles cfg a b ≤ 0`),
which is what a comparator-driven stable sort orders by. -/
def fileLe (cfg : SortConfig) (a b : StoredFile) : Bool :=
  decide (cmpFiles cfg a b ≤ 0)

/-- The filter predicate of `filteredAndSortedFiles`: case-insensitive
substring match of the search term against name or medical course. -/
def matchesSearch (searchTerm : String) (f : StoredFile) : Bool :=
  includesChars (toLowerChars f.name.data) (toLowerChars searchTerm.data) ||
  includesChars (toLowerChars f.medicalCourse.data) (toLowerChars searchTerm.data)

/-- `filteredAndSortedFiles` (`FileManager.tsx` lines 128–148): filter by the
search term, then sort with the three-way comparator.  ECMAScript
`Array.prototype.sort` is a stable sort agreeing with the comparator, which a
merge sort on `cmpFiles cfg a b ≤ 0` realises. -/
def filteredAndSortedFiles (files : List StoredFile) (searchTerm : String)
    (cfg : SortConfig) : List StoredFile :=
  (files.filter (matchesSearch searchTerm)).mergeSort (fileLe cfg)

/-! ### Order lemmas for the comparator -/

theorem cmp3_le_zero_asc {α : Type} {lt : α → α → Bool} (h : StrictTotalB lt)
    (x y : α) : cmp3 lt SortDir.asc x y ≤ 0 ↔ lt y x = false := by
  unfold cmp3
  split_ifs with h1 h2
  · exact iff_of_true (by norm_num) (h.asymm h1)
  · exact iff_of_false (by norm_num) (by simp [h2])
  · exact iff_of_true le_rfl (by simpa using h2)

theorem cmp3_le_zero_desc {α : Type} {lt : α → α → Bool} (h : StrictTotalB lt)
    (x y : α) : cmp3 lt SortDir.desc x y ≤ 0 ↔ lt x y = false := by
  unfold cmp3
  split_ifs with h1 h2
  · exact iff_of_false (by norm_num) (by simp [h1])
  · exact iff_of_true (by norm_num) (h.asymm h2)
  · exact iff_of_true le_rfl (by simpa using h1)

theorem notLt_trans {α : Type} {lt : α → α → Bool} (h : StrictTotalB lt)
    {x y z : α} (hxy : lt y x = false) (hyz : lt z y = false) :
    lt z x = false := by
  by_contra hc
  rw [Bool.not_eq_false] at hc
  rcases h.2.2 z y with hzy | hyz' | hzy
  · rw [hyz] at hzy
    exact Bool.false_ne_true hzy
  · have := h.2.1 y z x hyz' hc
    rw [hxy] at this
    exact Bool.false_ne_true this
  · subst hzy
    rw [hxy] at hc
    exact Bool.false_ne_true hc

theorem cmp3_trans {α : Type} {lt : α → α → Bool} (h : StrictTotalB lt)
    (d : SortDir) (x y z : α)
    (hxy : cmp3 lt d x y ≤ 0) (hyz : cmp3 lt d y z ≤ 0) :
    cmp3 lt d x z ≤ 0 := by
  cases d
  · rw [cmp3_le_zero_asc h] at *
    exact notLt_trans h hxy hyz
  · rw [cmp3_le_zero_desc h] at *
    exact notLt_trans h hyz hxy

theorem cmp3_total {α : Type} {lt : α → α → Bool} (h : StrictTotalB lt)
    (d : SortDir) (x y : α) : cmp3 lt d x y ≤ 0 ∨ cmp3 lt d y x ≤ 0 := by
  cases d
  · rw [cmp3_le_zero_asc h, cmp3_le_zero_asc h]
    rcases Bool.eq_false_or_eq_true (lt y x) with ht | hf
    · exact Or.inr (h.asymm ht)
    · exact Or.inl hf
  · rw [cmp3_le_zero_desc h, cmp3_le_zero_desc h]
    rcases Bool.eq_false_or_eq_true (lt x y) with ht | hf
    · exact Or.inr (h.asymm ht)
    · exact Or.inl hf


theorem fileLe_iff (cfg : SortConfig) (a b : StoredFile) :
    fileLe cfg a b = true ↔ cmpFiles cfg a b ≤ 0 := by
  simp [fileLe]

theorem fileLe_trans (cfg : SortConfig) (a b c : StoredFile)
    (hab : fileLe cfg a b) (hbc : fileLe cfg b c) : fileLe cfg a c := by
  obtain ⟨k, d⟩ := cfg
  rw [fileLe_iff] at *
  cases k
  · exact cmp3_trans charsLt_strictTotal _ _ _ _ hab hbc
  · exact cmp3_trans charsLt_strictTotal _ _ _ _ hab hbc
  · exact cmp3_trans natLt_strictTotal _ _ _ _ hab hbc
  · exact cmp3_trans natLt_strictTotal _ _ _ _ hab hbc

theorem fileLe_total (cfg : SortConfig) (a b : StoredFile) :
    fileLe cfg a b || fileLe cfg b a := by
  obtain ⟨k, d⟩ := cfg
  rw [Bool.or_eq_true, fileLe_iff, fileLe_iff]
  cases k
  · exact cmp3_total charsLt_strictTotal _ _ _
  · exact cmp3_total charsLt_strictTotal _ _ _
  · exact cmp3_total natLt_strictTotal _ _ _
  · exact cmp3_total natLt_strictTotal _ _ _

/-- C1: for every catalog, search term, sort key and direction,
`filteredAndSortedFiles` keeps exactly the records whose name or category
contains the search term case-insensitively (the result is a permutation of
the filtered catalog, so its length is the number of matching records), every
adjacent pair of the result satisfies the active three-way comparator
(`cmpFiles cfg a b ≤ 0`), and ties (comparator `0`) keep their original
relative order. -/
theorem visibleRows_filter_sort (files : List StoredFile) (searchTerm : String)
    (cfg : SortConfig) :
    List.Perm (filteredAndSortedFiles files searchTerm cfg)
      (files.filter (matchesSearch searchTerm)) ∧
    (filteredAndSortedFiles files searchTerm cfg).length =
      files.countP (matchesSearch searchTerm) ∧
    (filteredAndSortedFiles files searchTerm cfg).Chain'
      (fun a b => cmpFiles cfg a b ≤ 0) ∧
    (∀ a b : StoredFile, cmpFiles cfg a b = 0 →
      List.Sublist [a, b] (files.filter (matchesSearch searchTerm)) →
      List.Sublist [a, b] (filteredAndSortedFiles files searchTerm cfg)) := by
  refine ⟨List.mergeSort_perm _ _, ?_, ?_, ?_⟩
  · unfold filteredAndSortedFiles
    rw [(List.mergeSort_perm _ _).length_eq, List.countP_eq_length_filter]
  · have hp := List.sorted_mergeSort (fileLe_trans cfg) (fileLe_total cfg)
      (files.filter (matchesSearch searchTerm))
    exact (hp.imp (fun h => (fileLe_iff cfg _ _).mp h)).chain'
  · intro a b h0 hsub
    exact List.pair_sublist_mergeSort (fileLe_trans cfg) (fileLe_total cfg)
      ((fileLe_iff cfg a b).mpr (le_of_eq h0)) hsub

/-- Witness for C1: a concrete two-record catalog whose records tie on the
name key; the theorem yields the preserved relative order of the tie. -/
theorem visibleRows_filter_sort_witness :
    cmpFiles ⟨SortKey.name, SortDir.asc⟩
      ⟨"1", "a.pdf", "application/pdf", 1, 0, "Cardiology"⟩
      ⟨"2", "a.pdf", "application/pdf", 2, 1, "Neurology"⟩ = 0 ∧
    List.Sublist
      [(⟨"1", "a.pdf", "application/pdf", 1, 0, "Cardiology"⟩ : StoredFile),
       ⟨"2", "a.pdf", "application/pdf", 2, 1, "Neurology"⟩]
      (filteredAndSortedFiles
        [⟨"1", "a.pdf", "application/pdf", 1, 0, "Cardiology"⟩,
         ⟨"2", "a.pdf", "application/pdf", 2, 1, "Neurology"⟩]
        "" ⟨SortKey.name, SortDir.asc⟩) := by
  have hf : ([⟨"1", "a.pdf", "application/pdf", 1, 0, "Cardiology"⟩,
      ⟨"2", "a.pdf", "application/pdf", 2, 1, "Neurology"⟩] :
        List StoredFile).filter (matchesSearch "") =
      [⟨"1", "a.pdf", "application/pdf", 1, 0, "Cardiology"⟩,
       ⟨"2", "a.pdf", "application/pdf", 2, 1, "Neurology"⟩] := by decide
  refine ⟨by decide, ?_⟩
  exact (visibleRows_filter_sort _ "" ⟨SortKey.name, SortDir.asc⟩).2.2.2 _ _
    (by decide) (by rw [hf])

/-- C2: clicking the already-active key flips the direction (ascending to
descending and back), clicking any other key selects it with ascending
direction, and switching away then back to the original key always lands on
ascending. -/
theorem handleSort_spec (cfg : SortConfig) (k : SortKey) :
    (cfg.direction = SortDir.asc →
      handleSort cfg cfg.key = ⟨cfg.key, SortDir.desc⟩) ∧
    (cfg.direction = SortDir.desc →
      handleSort cfg cfg.key = ⟨cfg.key, SortDir.asc⟩) ∧
    (cfg.key ≠ k → handleSort cfg k = ⟨k, SortDir.asc⟩) ∧
    (cfg.key ≠ k →
      handleSort (handleSort cfg k) cfg.key = ⟨cfg.key, SortDir.asc⟩) := by
  obtain ⟨ck, cd⟩ := cfg
  cases ck <;> cases cd <;> cases k <;> decide

/-- Witness for C2 at a concrete configuration: descending-by-name, clicking
name flips to ascending; clicking size resets to ascending-by-size; clicking
size then name lands on ascending-by-name. -/
theorem handleSort_spec_witness :
    handleSort ⟨SortKey.name, SortDir.desc⟩ SortKey.name =
      ⟨SortKey.name, SortDir.asc⟩ ∧
    handleSort ⟨SortKey.name, SortDir.desc⟩ SortKey.size =
      ⟨SortKey.size, SortDir.asc⟩ ∧
    handleSort (handleSort ⟨SortKey.name, SortDir.desc⟩ SortKey.size)
      SortKey.name = ⟨SortKey.name, SortDir.asc⟩ :=
  ⟨(handleSort_spec ⟨SortKey.name, SortDir.desc⟩ SortKey.name).2.1 rfl,
   (handleSort_spec ⟨SortKey.name, SortDir.desc⟩ SortKey.size).2.2.1 (by decide),
   (handleSort_spec ⟨SortKey.name, SortDir.desc⟩ SortKey.size).2.2.2 (by decide)⟩

/-! ## Document classification (`App.tsx`) -/

/-- The fixed category enumeration `MEDICAL_COURSES` (`App.tsx`). -/
def MEDICAL_COURSES : List String :=
  ["General Medicine", "Cardiology", "Neurology", "Pediatrics", "Oncology",
   "Orthopedics", "Radiology"]

/-- The regex test `lower.match(/k1|k2|.../)` of `classifyFileLocal`: every
alternative is a literal, so a match is substring containment of one of
them. -/
def matchAnyKeyword (lower : List Char) (keywords : List String) : Bool :=
  keywords.any (fun k => includesChars lower k.data)

/-- `classifyFileLocal` (`App.tsx` lines 27–36): the deterministic keyword
heuristic on the lowercased file name. -/
def classifyFileLocal (filename : String) : String :=
  let lower := toLowerChars filename.data
  if matchAnyKeyword lower
      ["heart", "cardio", "ecg", "ekg", "vascular", "bp", "aorta"] then
    "Cardiology"
  else if matchAnyKeyword lower
      ["brain", "neuro", "stroke", "spine", "nerve", "head", "mental"] then
    "Neurology"
  else if matchAnyKeyword lower
      ["child", "ped", "infant", "baby", "growth", "vaccine"] then
    "Pediatrics"
  else if matchAnyKeyword lower
      ["cancer", "tumor", "chemo", "onco", "mass", "biopsy", "malignant"] then
    "Oncology"
  else if matchAnyKeyword lower
      ["bone", "fracture", "ortho", "knee", "joint", "hip", "muscle"] then
    "Orthopedics"
  else if matchAnyKeyword lower
      ["xray", "x-ray", "mri", "ct", "scan", "ultrasound", "image", "dicom"] then
    "Radiology"
  else
    "General Medicine"

/-- JS `String.prototype.trim` on the character data (ASCII whitespace). -/
def trimChars (s : List Char) : List Char :=
  ((s.dropWhile (fun c => c == ' ' || c == '\t' || c == '\n' || c == '\r')).reverse.dropWhile
    (fun c => c == ' ' || c == '\t' || c == '\n' || c == '\r')).reverse

/-- Outcome of the external `generateContent` call: `err` models any thrown
error (network, unauthorized, malformed response), `ok t` a resolved call
whose `response.text` is `t` (`none` models JS `undefined`). -/
inductive AIOutcome
  | err
  | ok (text : Option String)
deriving DecidableEq, Repr

/-- `classifyDocument` (`App.tsx` lines 38–72), with the presence of the API
key and the outcome of the AI call as explicit parameters; `name` and
`mimeType` are `file.name` and `file.type`. A non-empty trimmed response
matching a known course case-insensitively returns the case-correct course;
everything else falls through to `classifyFileLocal`. -/
def classifyDocument (hasApiKey : Bool) (ai : AIOutcome)
    (name mimeType : String) : String :=
  if hasApiKey then
    match ai with
    | AIOutcome.err => classifyFileLocal name
    | AIOutcome.ok none => classifyFileLocal name
    | AIOutcome.ok (some raw) =>
      let text := trimChars raw.data
      if !text.isEmpty && MEDICAL_COURSES.any
          (fun c => toLowerChars c.data == toLowerChars text) then
        match MEDICAL_COURSES.find?
            (fun c => toLowerChars c.data == toLowerChars text) with
        | some c => c
        | none => "General Medicine"
      else
        classifyFileLocal name
  else
    classifyFileLocal name

theorem classifyFileLocal_mem (filename : String) :
    classifyFileLocal filename ∈ MEDICAL_COURSES := by
  simp only [classifyFileLocal]
  split_ifs <;> simp [MEDICAL_COURSES]

/-- C7: classification always returns a member of the fixed enumeration, and
on any failure of the external call — a thrown error, a missing response
text, or a response text recognized as no category — the result is exactly
the local keyword heuristic applied to the file name. -/
theorem classifyDocument_spec (hasApiKey : Bool) (ai : AIOutcome)
    (name mimeType : String) :
    classifyDocument hasApiKey ai name mimeType ∈ MEDICAL_COURSES ∧
    (ai = AIOutcome.err →
      classifyDocument hasApiKey ai name mimeType = classifyFileLocal name) ∧
    (ai = AIOutcome.ok none →
      classifyDocument hasApiKey ai name mimeType = classifyFileLocal name) ∧
    (∀ raw : String, ai = AIOutcome.ok (some raw) →
      MEDICAL_COURSES.any
        (fun c => toLowerChars c.data == toLowerChars (trimChars raw.data)) = false →
      classifyDocument hasApiKey ai name mimeType = classifyFileLocal name) := by
  refine ⟨?_, ?_, ?_, ?_⟩
  · cases hasApiKey with
    | false => exact classifyFileLocal_mem name
    | true =>
      cases ai with
      | err => exact classifyFileLocal_mem name
      | ok t =>
        cases t with
        | none => exact classifyFileLocal_mem name
        | some raw =>
          cases hb : (!(trimChars raw.data).isEmpty && MEDICAL_COURSES.any
              (fun c => toLowerChars c.data == toLowerChars (trimChars raw.data))) with
          | false =>
            have he : classifyDocument true (AIOutcome.ok (some raw)) name mimeType =
                classifyFileLocal name := by
              simp [classifyDocument, hb]
            rw [he]
            exact classifyFileLocal_mem name
          | true =>
            rcases hf : MEDICAL_COURSES.find?
                (fun c => toLowerChars c.data == toLowerChars (trimChars raw.data))
              with _ | c
            · have he : classifyDocument true (AIOutcome.ok (some raw)) name mimeType =
                  "General Medicine" := by
                simp [classifyDocument, hb, hf]
              rw [he]
              simp [MEDICAL_COURSES]
            · have he : classifyDocument true (AIOutcome.ok (some raw)) name mimeType =
                  c := by
                simp [classifyDocument, hb, hf]
              rw [he]
              exact List.mem_of_find?_eq_some hf
  · intro h
    subst h
    cases hasApiKey <;> rfl
  · intro h
    subst h
    cases hasApiKey <;> rfl
  · intro raw h hmiss
    subst h
    cases hasApiKey with
    | false => rfl
    | true => simp [classifyDocument, hmiss]

/-- Witness for C7: with the API key present and the AI call throwing, the
class of "heart.pdf" is the local heuristic's answer and lies in the
enumeration. -/
theorem classifyDocument_spec_witness :
    classifyDocument true AIOutcome.err "heart.pdf" "application/pdf" ∈
      MEDICAL_COURSES ∧
    classifyDocument true AIOutcome.err "heart.pdf" "application/pdf" =
      classifyFileLocal "heart.pdf" :=
  ⟨(classifyDocument_spec true AIOutcome.err "heart.pdf" "application/pdf").1,
   (classifyDocument_spec true AIOutcome.err "heart.pdf" "application/pdf").2.1 rfl⟩

/-- C8 fails on the code: an AI response text matching no category does not
force "General Medicine" — it falls back to the local keyword heuristic,
which classifies "heart.pdf" as Cardiology. -/
theorem unmatched_ai_response_not_general_medicine :
    MEDICAL_COURSES.any
      (fun c => toLowerChars c.data ==
        toLowerChars (trimChars ("garbage".data))) = false ∧
    classifyDocument true (AIOutcome.ok (some "garbage")) "heart.pdf"
      "application/pdf" = "Cardiology" ∧
    classifyDocument true (AIOutcome.ok (some "garbage")) "heart.pdf"
      "application/pdf" ≠ "General Medicine" :=
  ⟨by decide, by decide, by decide⟩

/-- C8 amended: whenever the AI response text matches no category
case-insensitively, the assigned category is the local keyword heuristic of
the file name (hence "General Medicine" exactly when no keyword matches). -/
theorem classifyDocument_unmatched_is_local (hasApiKey : Bool)
    (name mimeType raw : String)
    (h : MEDICAL_COURSES.any
      (fun c => toLowerChars c.data == toLowerChars (trimChars raw.data)) = false) :
    classifyDocument hasApiKey (AIOutcome.ok (some raw)) name mimeType =
      classifyFileLocal name := by
  cases hasApiKey with
  | false => rfl
  | true => simp [classifyDocument, h]

/-- Witness for the amended C8: the unrecognized response "garbage" on a
generic file name yields the local heuristic's answer. -/
theorem classifyDocument_unmatched_is_local_witness :
    MEDICAL_COURSES.any
      (fun c => toLowerChars c.data ==
        toLowerChars (trimChars ("garbage".data))) = false ∧
    classifyDocument true (AIOutcome.ok (some "garbage")) "report.pdf"
      "application/pdf" = classifyFileLocal "report.pdf" :=
  ⟨by decide,
   classifyDocument_unmatched_is_local true "report.pdf" "application/pdf"
     "garbage" (by decide)⟩

/-! ## Authentication service (`backend.ts`) -/

/-- `User` from `types.ts`: optional email and password. -/
structure User where
  username : String
  email : Option String
  password : Option String
deriving DecidableEq, Repr

/-- `AuthService.register` (`backend.ts` lines 87–115), local branch (the
store-backed implementation; the cloud branch delegates wholly to the
external service). Returns the call's outcome — the password-stripped
profile or the thrown error — together with the `medivault_users` store
after the call. -/
def register (users : List User) (newUser : User) :
    Except String User × List User :=
  if users.any (fun u => u.username == newUser.username) then
    (Except.error "Username is already taken", users)
  else
    (Except.ok { newUser with password := none }, users ++ [newUser])

/-- C6: registering a username already present in the store fails with
exactly "Username is already taken" and leaves the user store unchanged. -/
theorem register_duplicate_username (users : List User) (newUser : User)
    (h : ∃ u ∈ users, u.username = newUser.username) :
    register users newUser = (Except.error "Username is already taken", users) := by
  have ha : users.any (fun u => u.username == newUser.username) = true := by
    rcases h with ⟨u, hu, he⟩
    exact List.any_eq_true.mpr ⟨u, hu, by simp [he]⟩
  simp [register, ha]

/-- Witness for C6: re-registering the seeded "admin" user fails and keeps
the store as it was. -/
theorem register_duplicate_username_witness :
    register [⟨"admin", some "admin@medivault.com", some "password123"⟩]
        ⟨"admin", none, some "pw"⟩ =
      (Except.error "Username is already taken",
       [⟨"admin", some "admin@medivault.com", some "password123"⟩]) :=
  register_duplicate_username _ _ ⟨_, List.mem_singleton_self _, rfl⟩

/-! ## The delete path (`App.tsx` `handleDelete`, `backend.ts` `deleteFile`) -/

/-- `App.tsx`'s `handleDelete` (lines 153–161) as a function of the promise
outcome of `FileService.deleteFile`: the in-memory catalog afterwards and
whether the alert ("Could not delete file.") fired. The catalog is filtered
only after the delete resolves; a rejection leaves it untouched. -/
def handleDelete (deleteOutcome : Except String Unit)
    (files : List StoredFile) (id : String) : List StoredFile × Bool :=
  match deleteOutcome with
  | Except.ok _ => (files.filter (fun f => !(f.id == id)), false)
  | Except.error _ => (files, true)

/-- C4: when the persistence delete rejects, the catalog after `handleDelete`
is exactly the catalog before it and only the alert fires; the entry is
filtered out of the catalog only on the resolved (acknowledged) path. -/
theorem handleDelete_failure_keeps_catalog (files : List StoredFile)
    (id msg : String) :
    handleDelete (Except.error msg) files id = (files, true) ∧
    handleDelete (Except.ok ()) files id =
      (files.filter (fun f => !(f.id == id)), false) :=
  ⟨rfl, rfl⟩

/-- A row of the `medivault_files` local-storage array: `uploadFiles` strips
the `content` payload before storing. -/
structure LocalFileRow where
  id : String
  name : String
  type : String
  size : Nat
  uploadDate : Nat
  medicalCourse : String
deriving DecidableEq, Repr

/-- `FileService.deleteFile` (`backend.ts` lines 179–192). In cloud mode the
backend call returns its error inside a `{ data, error }` value that the
code never inspects, so the promise resolves regardless of `cloudError`; in
local mode deletion is a total filter over the stored rows. The local store
is threaded explicitly; an `Except.error` result would model a rejected
promise, and no branch produces one. -/
def deleteFile (isCloudEnabled : Bool) (cloudError : Option String)
    (store : List LocalFileRow) (id : String) :
    Except String (List LocalFileRow) :=
  if isCloudEnabled then
    Except.ok store
  else
    Except.ok (store.filter (fun f => !(f.id == id)))

/-- C5: `deleteFile` always resolves in both modes (the cloud error is
discarded, the local path is total), so `handleDelete` composed with it
never fires the alert branch and always removes every catalog record with
the given id. -/
theorem deleteFile_never_rejects (isCloud : Bool) (cloudError : Option String)
    (store : List LocalFileRow) (files : List StoredFile) (id : String) :
    (∃ s, deleteFile isCloud cloudError store id = Except.ok s) ∧
    deleteFile false cloudError store id =
      Except.ok (store.filter (fun f => !(f.id == id))) ∧
    (handleDelete ((deleteFile isCloud cloudError store id).map (fun _ => ()))
      files id).2 = false ∧
    (handleDelete ((deleteFile isCloud cloudError store id).map (fun _ => ()))
      files id).1 = files.filter (fun f => !(f.id == id)) ∧
    (∀ f ∈ (handleDelete ((deleteFile isCloud cloudError store id).map
      (fun _ => ())) files id).1, f.id ≠ id) := by
  cases isCloud
  · refine ⟨⟨_, rfl⟩, rfl, rfl, rfl, ?_⟩
    intro f hf
    simp only [deleteFile, Bool.false_eq_true, if_false, Except.map,
      handleDelete, List.mem_filter] at hf
    simpa using hf.2
  · refine ⟨⟨_, rfl⟩, rfl, rfl, rfl, ?_⟩
    intro f hf
    simp only [deleteFile, if_true, Except.map,
      handleDelete, List.mem_filter] at hf
    simpa using hf.2

/-- Witness for C5: deleting id "1" from a concrete two-record catalog fires
no alert, and the surviving record's id differs from "1". -/
theorem deleteFile_never_rejects_witness :
    (handleDelete ((deleteFile false none [] "1").map (fun _ => ()))
      [⟨"1", "a.pdf", "t", 1, 0, "General Medicine"⟩,
       ⟨"2", "b.pdf", "t", 1, 0, "General Medicine"⟩] "1").2 = false ∧
    (⟨"2", "b.pdf", "t", 1, 0, "General Medicine"⟩ : StoredFile).id ≠ "1" :=
  ⟨(deleteFile_never_rejects false none []
      [⟨"1", "a.pdf", "t", 1, 0, "General Medicine"⟩,
       ⟨"2", "b.pdf", "t", 1, 0, "General Medicine"⟩] "1").2.2.1,
   (deleteFile_never_rejects false none []
      [⟨"1", "a.pdf", "t", 1, 0, "General Medicine"⟩,
       ⟨"2", "b.pdf", "t", 1, 0, "General Medicine"⟩] "1").2.2.2.2
     ⟨"2", "b.pdf", "t", 1, 0, "General Medicine"⟩ (by decide)⟩

/-! ## Persistence round trip (`backend.ts` `uploadFiles` / `getAllFiles`) -/

/-- A row of the cloud `files` table as `uploadFiles` inserts it: a
snake_case `medical_course` column and a `created_at` timestamp. The
database-assigned row id plays no role in any claim and is not modelled. -/
structure CloudFileRow where
  name : String
  type : String
  size : Nat
  medical_course : String
  created_at : Nat
deriving DecidableEq, Repr

/-- A record as produced by `FileService.getAllFiles`. The declared TS
result type is `StoredFile`, but the cloud branch spreads a raw table row,
so the `medicalCourse` property can be absent: `none` models JS
`undefined`. The synthesized placeholder `content` payload is omitted, and
ids are not modelled (see `CloudFileRow`). -/
structure FetchedFile where
  name : String
  type : String
  size : Nat
  uploadDate : Nat
  medicalCourse : Option String
deriving DecidableEq, Repr

/-- `FileService.uploadFiles`, local branch (`backend.ts` lines 163–176):
append the stripped rows to the `medivault_files` array. -/
def uploadFilesLocal (store : List LocalFileRow) (newFiles : List StoredFile) :
    List LocalFileRow :=
  store ++ newFiles.map (fun f =>
    ⟨f.id, f.name, f.type, f.size, f.uploadDate, f.medicalCourse⟩)

/-- `FileService.getAllFiles`, local branch (`backend.ts` lines 135–142):
re-read the rows, reviving the date from the stored value. -/
def getAllFilesLocal (store : List LocalFileRow) : List FetchedFile :=
  store.map (fun f => ⟨f.name, f.type, f.size, f.uploadDate, some f.medicalCourse⟩)

/-- `FileService.uploadFiles`, cloud branch (`backend.ts` lines 148–161):
insert metadata rows with the `medical_course` column and
`created_at := now` (the insertion time). -/
def uploadFilesCloud (table : List CloudFileRow) (newFiles : List StoredFile)
    (now : Nat) : List CloudFileRow :=
  table ++ newFiles.map (fun f => ⟨f.name, f.type, f.size, f.medicalCourse, now⟩)

/-- `FileService.getAllFiles`, cloud branch (`backend.ts` lines 123–134):
spread each row and revive `uploadDate` from `created_at`. The spread copies
`medical_course`, never `medicalCourse`, so that property of the result is
absent (`none`). -/
def getAllFilesCloud (table : List CloudFileRow) : List FetchedFile :=
  table.map (fun f => ⟨f.name, f.type, f.size, f.created_at, none⟩)

/-- C9: the round trip through the local branch preserves name, type, size
and category exactly, but through the cloud branch the read-back record has
no `medicalCourse` property at all (the row keeps it under `medical_course`
and the read-back spread never maps it back), so the claimed category
identity fails there. -/
theorem uploadFiles_getAllFiles_roundTrip (store : List LocalFileRow)
    (table : List CloudFileRow) (f : StoredFile) (now : Nat) :
    getAllFilesLocal (uploadFilesLocal store [f]) =
      getAllFilesLocal store ++
        [⟨f.name, f.type, f.size, f.uploadDate, some f.medicalCourse⟩] ∧
    getAllFilesCloud (uploadFilesCloud table [f] now) =
      getAllFilesCloud table ++ [⟨f.name, f.type, f.size, now, none⟩] := by
  constructor
  · simp [getAllFilesLocal, uploadFilesLocal]
  · simp [getAllFilesCloud, uploadFilesCloud]

/-! ## Catalog identifier uniqueness (`App.tsx` `generateId`, session states) -/

/-- One session-level catalog change in `App.tsx`: a completed upload batch
appended by `handleUpload` — its records carry ids drawn from `generateId`,
i.e. `Math.random().toString(36).substr(2, 9)`, modelled as unconstrained
oracle values inside the records — or an acknowledged delete. -/
inductive SessionEvent
  | upload (newRecords : List StoredFile)
  | del (id : String)
deriving Repr

/-- Apply one event to the in-memory catalog, as the `setFiles` updates of
`handleUpload` and `handleDelete` do. -/
def applyEvent (files : List StoredFile) : SessionEvent → List StoredFile
  | SessionEvent.upload newRecords => files ++ newRecords
  | SessionEvent.del id => files.filter (fun f => !(f.id == id))

/-- The catalog reached from the loaded catalog `init` after a sequence of
events. -/
def runSession (init : List StoredFile) (evs : List SessionEvent) :
    List StoredFile :=
  evs.foldl applyEvent init

/-- The ids `generateId` hands out during the session, in order. -/
def sessionIds (evs : List SessionEvent) : List String :=
  evs.foldr (fun e acc =>
    (match e with
     | SessionEvent.upload newRecords => newRecords.map (fun f => f.id)
     | SessionEvent.del _ => []) ++ acc) []

theorem sessionIds_cons (e : SessionEvent) (evs : List SessionEvent) :
    sessionIds (e :: evs) =
      (match e with
       | SessionEvent.upload newRecords => newRecords.map (fun f => f.id)
       | SessionEvent.del _ => []) ++ sessionIds evs := rfl

theorem runSession_ids_sublist : ∀ (evs : List SessionEvent)
    (init : List StoredFile),
    List.Sublist ((runSession init evs).map (fun f => f.id))
      (init.map (fun f => f.id) ++ sessionIds evs)
  | [], init => by
    simp [runSession, sessionIds]
  | e :: evs, init => by
    have ih := runSession_ids_sublist evs (applyEvent init e)
    have hrun : runSession init (e :: evs) = runSession (applyEvent init e) evs :=
      rfl
    rw [hrun, sessionIds_cons]
    refine ih.trans ?_
    cases e with
    | upload newRecords =>
      rw [show applyEvent init (SessionEvent.upload newRecords) =
        init ++ newRecords from rfl]
      rw [List.map_append, List.append_assoc]
    | del id =>
      rw [show applyEvent init (SessionEvent.del id) =
        init.filter (fun f => !(f.id == id)) from rfl]
      rw [List.nil_append]
      exact (((List.filter_sublist init).map (fun f => f.id)).append_right _)

/-- C10 fails as stated: `generateId` draws from `Math.random` with no
freshness guarantee, so a session in which it returns "abc" for two distinct
uploads reaches a catalog whose ids are not pairwise distinct. -/
theorem catalog_ids_collision :
    ¬ ((runSession []
        [SessionEvent.upload
          [⟨"abc", "a.pdf", "application/pdf", 1, 0, "General Medicine"⟩],
         SessionEvent.upload
          [⟨"abc", "b.pdf", "application/pdf", 2, 1, "Neurology"⟩]]).map
        (fun f => f.id)).Nodup := by
  decide

/-- C10 amended: provided the ids of the loaded catalog together with every
id `generateId` produces during the session are pairwise distinct, every
reachable catalog state has pairwise-distinct identifiers. -/
theorem runSession_ids_nodup (init : List StoredFile) (evs : List SessionEvent)
    (h : (init.map (fun f => f.id) ++ sessionIds evs).Nodup) :
    ((runSession init evs).map (fun f => f.id)).Nodup :=
  (runSession_ids_sublist evs init).nodup h

/-- Witness for the amended C10: one fresh upload and one delete starting
from a one-record catalog keep the ids pairwise distinct. -/
theorem runSession_ids_nodup_witness :
    (([(⟨"z", "c.pdf", "t", 1, 0, "General Medicine"⟩ : StoredFile)].map
        (fun f => f.id) ++
      sessionIds
        [SessionEvent.upload [⟨"abc", "a.pdf", "t", 1, 0, "General Medicine"⟩],
         SessionEvent.del "z"]).Nodup) ∧
    ((runSession [⟨"z", "c.pdf", "t", 1, 0, "General Medicine"⟩]
        [SessionEvent.upload [⟨"abc", "a.pdf", "t", 1, 0, "General Medicine"⟩],
         SessionEvent.del "z"]).map (fun f => f.id)).Nodup :=
  ⟨by decide, runSession_ids_nodup _ _ (by decide)⟩

/-! ## Simulated upload (`FileManager.tsx` `simulateUploads`, one ticket) -/

/-- Ticket status from `UploadingFile` (`FileManager.tsx`). -/
inductive TicketStatus
  | uploading
  | success
  | error
deriving DecidableEq, Repr

/-- The observable state of one simulated upload: the ticket's progress and
status, the files forwarded to `onUpload` so far (one list entry per call;
each call carries exactly `[uploadItem.file]` and `handleUpload` makes
exactly one `FileService.uploadFiles` call per `onUpload` call), and whether
the interval is still scheduled. -/
structure SimState where
  progress : ℚ
  status : TicketStatus
  uploadCalls : List String
  active : Bool
deriving DecidableEq, Repr

/-- The ticket as `simulateUploads` creates it: progress 0, uploading. -/
def initTicket : SimState :=
  ⟨0, TicketStatus.uploading, [], true⟩

/-- One firing of the interval callback with the per-ticket speed
(`5 + Math.random() * 15`) for the ticket of `file`: add the speed; on
reaching 100 clamp to 100, flip to success, forward `[file]` to `onUpload`
and clear the interval. A cleared interval never fires again. -/
def tick (speed : ℚ) (file : String) (s : SimState) : SimState :=
  if s.active then
    let p := s.progress + speed
    if 100 ≤ p then
      ⟨100, TicketStatus.success, s.uploadCalls ++ [file], false⟩
    else
      ⟨p, s.status, s.uploadCalls, s.active⟩
  else s

/-- The ticket state after `n` timer firings. -/
def simRun (speed : ℚ) (file : String) : Nat → SimState
  | 0 => initTicket
  | n + 1 => tick speed file (simRun speed file n)

theorem simRun_succ (speed : ℚ) (file : String) (n : Nat) :
    simRun speed file (n + 1) = tick speed file (simRun speed file n) := rfl

theorem simRun_inv (speed : ℚ) (file : String) (h5 : 5 ≤ speed) : ∀ n : Nat,
    ((simRun speed file n).active = true →
      (simRun speed file n).status = TicketStatus.uploading ∧
      0 ≤ (simRun speed file n).progress ∧
      (simRun speed file n).progress < 100 ∧
      (simRun speed file n).uploadCalls = []) ∧
    ((simRun speed file n).active = false →
      (simRun speed file n).status = TicketStatus.success ∧
      (simRun speed file n).progress = 100 ∧
      (simRun speed file n).uploadCalls = [file])
  | 0 => by
    constructor
    · intro _
      exact ⟨rfl, le_refl 0, by norm_num [simRun, initTicket], rfl⟩
    · intro hc
      simp [simRun, initTicket] at hc
  | n + 1 => by
    have ih := simRun_inv speed file h5 n
    rw [simRun_succ]
    rcases hsn : simRun speed file n with ⟨p, st, u, a⟩
    rw [hsn] at ih
    cases a with
    | false =>
      simpa [tick] using ih
    | true =>
      obtain ⟨hst, hp0, hp100, hu⟩ := ih.1 rfl
      dsimp at hst hp0 hp100 hu
      by_cases hc : (100 : ℚ) ≤ p + speed
      · constructor
        · intro habs
          simp [tick, hc] at habs
        · intro _
          simp [tick, hc, hu]
      · constructor
        · intro _
          refine ⟨by simp [tick, hc, hst], ?_, ?_, by simp [tick, hc, hu]⟩
          · simp [tick, hc]
            linarith
          · simp [tick, hc]
            linarith [not_le.mp hc]
        · intro habs
          simp [tick, hc] at habs

theorem simRun_inactive_step (speed : ℚ) (file : String) (n : Nat)
    (h : (simRun speed file n).active = false) :
    simRun speed file (n + 1) = simRun speed file n := by
  rw [simRun_succ]
  simp [tick, h]

theorem simRun_active_progress (speed : ℚ) (file : String) (h5 : 5 ≤ speed) :
    ∀ n : Nat, (simRun speed file n).active = true →
      5 * (n : ℚ) ≤ (simRun speed file n).progress
  | 0, _ => by
    simp [simRun, initTicket]
  | n + 1, h => by
    by_cases ha : (simRun speed file n).active = true
    · by_cases hc : (100 : ℚ) ≤ (simRun speed file n).progress + speed
      · exfalso
        rw [simRun_succ] at h
        simp [tick, ha, hc] at h
      · have ih := simRun_active_progress speed file h5 n ha
        rw [simRun_succ]
        simp [tick, ha, hc]
        linarith
    · rw [simRun_inactive_step speed file n (by simpa using ha)] at h
      exact absurd h ha

theorem simRun_inactive_at_twenty (speed : ℚ) (file : String) (h5 : 5 ≤ speed) :
    (simRun speed file 20).active = false := by
  by_contra hc
  rw [Bool.not_eq_false] at hc
  have h1 := simRun_active_progress speed file h5 20 hc
  have h2 := ((simRun_inv speed file h5 20).1 hc).2.2.1
  norm_num at h1
  linarith

theorem simRun_stable (speed : ℚ) (file : String) (n : Nat)
    (hact : (simRun speed file n).active = false) :
    ∀ m : Nat, n ≤ m → simRun speed file m = simRun speed file n := by
  intro m
  induction m with
  | zero =>
    intro h
    have h0 := Nat.le_zero.mp h
    subst h0
    rfl
  | succ k ih =>
    intro h
    rcases eq_or_lt_of_le h with h1 | h1
    · rw [← h1]
    · have hk : n ≤ k := Nat.lt_succ_iff.mp h1
      have heq := ih hk
      have hak : (simRun speed file k).active = false := by
        rw [heq]
        exact hact
      rw [simRun_inactive_step speed file k hak, heq]

/-- C3: for one submitted file and every per-ticket speed the code can draw
(`speed = 5 + Math.random() * 15 ≥ 5`), along the timer-driven execution the
ticket's progress starts at 0, never decreases, never exceeds 100, its
status is success exactly when progress is exactly 100 and never reverts,
never more than one `onUpload` call has been made, and from the twentieth
tick on exactly one `onUpload` call — hence exactly one persistence upload —
has been made, carrying exactly that file. -/
theorem simulateUpload_spec (speed : ℚ) (file : String) (h5 : 5 ≤ speed) :
    (simRun speed file 0).progress = 0 ∧
    (∀ n : Nat, (simRun speed file n).progress ≤
      (simRun speed file (n + 1)).progress) ∧
    (∀ n : Nat, (simRun speed file n).progress ≤ 100) ∧
    (∀ n : Nat, ((simRun speed file n).status = TicketStatus.success ↔
      (simRun speed file n).progress = 100)) ∧
    (∀ n : Nat, (simRun speed file n).status = TicketStatus.success →
      (simRun speed file (n + 1)).status = TicketStatus.success) ∧
    (∀ n : Nat, (simRun speed file n).uploadCalls = [] ∨
      (simRun speed file n).uploadCalls = [file]) ∧
    (∀ n : Nat, 20 ≤ n →
      (simRun speed file n).status = TicketStatus.success ∧
      (simRun speed file n).uploadCalls = [file]) := by
  have hinv := simRun_inv speed file h5
  refine ⟨rfl, ?_, ?_, ?_, ?_, ?_, ?_⟩
  · intro n
    by_cases ha : (simRun speed file n).active = true
    · by_cases hc : (100 : ℚ) ≤ (simRun speed file n).progress + speed
      · rw [simRun_succ]
        simp [tick, ha, hc]
        exact ((hinv n).1 ha).2.2.1.le
      · rw [simRun_succ]
        simp [tick, ha, hc]
        linarith
    · rw [simRun_inactive_step speed file n (by simpa using ha)]
  · intro n
    by_cases ha : (simRun speed file n).active = true
    · exact ((hinv n).1 ha).2.2.1.le
    · exact le_of_eq ((hinv n).2 (by simpa using ha)).2.1
  · intro n
    by_cases ha : (simRun speed file n).active = true
    · obtain ⟨hst, _, hp100, _⟩ := (hinv n).1 ha
      constructor
      · intro hs
        rw [hst] at hs
        exact absurd hs (by simp)
      · intro hp
        rw [hp] at hp100
        exact absurd hp100 (by norm_num)
    · obtain ⟨hst, hp, _⟩ := (hinv n).2 (by simpa using ha)
      exact iff_of_true hst hp
  · intro n hs
    by_cases ha : (simRun speed file n).active = true
    · rw [((hinv n).1 ha).1] at hs
      exact absurd hs (by simp)
    · rw [simRun_inactive_step speed file n (by simpa using ha)]
      exact hs
  · intro n
    by_cases ha : (simRun speed file n).active = true
    · exact Or.inl ((hinv n).1 ha).2.2.2
    · exact Or.inr ((hinv n).2 (by simpa using ha)).2.2
  · intro n h20
    have hstab := simRun_stable speed file 20
      (simRun_inactive_at_twenty speed file h5) n h20
    rw [hstab]
    have hdone := (hinv 20).2 (simRun_inactive_at_twenty speed file h5)
    exact ⟨hdone.1, hdone.2.2⟩

/-- Witness for C3 at speed 10 and file "scan.pdf": progress starts at 0,
stays at most 100 after three ticks, and by tick 25 the status is success
with exactly one forwarded upload of that file. -/
theorem simulateUpload_spec_witness :
    (5 : ℚ) ≤ 10 ∧
    (simRun 10 "scan.pdf" 0).progress = 0 ∧
    (simRun 10 "scan.pdf" 3).progress ≤ 100 ∧
    (simRun 10 "scan.pdf" 25).status = TicketStatus.success ∧
    (simRun 10 "scan.pdf" 25).uploadCalls = ["scan.pdf"] :=
  ⟨by norm_num,
   (simulateUpload_spec 10 "scan.pdf" (by norm_num)).1,
   (simulateUpload_spec 10 "scan.pdf" (by norm_num)).2.2.1 3,
   ((simulateUpload_spec 10 "scan.pdf" (by norm_num)).2.2.2.2.2.2 25
     (by norm_num)).1,
   ((simulateUpload_spec 10 "scan.pdf" (by norm_num)).2.2.2.2.2.2 25
     (by norm_num)).2⟩

end Medivault
